import Mathlib

/-!
Shallow embedding of the cuckoodrive PartedFS overlay (drive/partedfs.py):
a wrapper filesystem that stores a logical file as physical pieces named
"name.partN" on a delegate filesystem and reassembles single-file semantics
(existence, listing, open, remove, rename, size, info) out of them.

The delegate filesystem is modelled at its root directory: every logical
path used by the theorems below is a bare name, which matches how the
source hands results of the delegate listing (bare names) straight back to
the delegate for per-part operations.
-/

/-- Fuel-driven core of fnmatch-style wildcard matching, with the star and
question-mark wildcards; fuel at least the sum of both lengths plus one is
always enough, and the fuel-exhausted arm is unreachable at that budget. -/
def globMatchGo : Nat → List Char → List Char → Bool
  | 0, _, _ => false
  | fuel + 1, p, s =>
    match p, s with
    | [], [] => true
    | '*' :: ps, [] => globMatchGo fuel ps []
    | '*' :: ps, c :: cs => globMatchGo fuel ps (c :: cs) || globMatchGo fuel ('*' :: ps) cs
    | '?' :: ps, _ :: cs => globMatchGo fuel ps cs
    | q :: ps, c :: cs => (q == c) && globMatchGo fuel ps cs
    | _, _ => false

/-- fnmatch-style wildcard matching, modelling the wildcard filtering of the
delegate listdir used by the source. -/
def globMatch (p s : List Char) : Bool :=
  globMatchGo (p.length + s.length + 1) p s

/-- Split a character list at the last occurrence of a separator: the pieces
before and after it, or none when the separator does not occur. Models the
right-splits of the pyfs path helpers (pathsplit, splitext). -/
def rsplitChar (c : Char) : List Char → Option (List Char × List Char)
  | [] => none
  | x :: xs =>
    match rsplitChar c xs with
    | some (a, b) => some (x :: a, b)
    | none => if x = c then some ([], xs) else none

/-- fs.path.dirname: everything before the last slash; empty for a bare name. -/
def pyDirname (s : String) : String :=
  match rsplitChar '/' s.data with
  | some (a, _) => ⟨a⟩
  | none => ""

/-- fs.path.basename: everything after the last slash; the whole string for a
bare name. -/
def pyBasename (s : String) : String :=
  match rsplitChar '/' s.data with
  | some (_, b) => ⟨b⟩
  | none => s

/-- PartedFS._encode: append the part suffix with the given index. -/
def pfsEncode (path : String) (part_index : Nat) : String :=
  path ++ ".part" ++ toString part_index

/-- PartedFS._decode, i.e. fs.path.splitext(path)[0]: drop the last
dot-extension of the basename; the path is unchanged when the basename has
no dot. -/
def pfsDecode (path : String) : String :=
  let d := pyDirname path
  let b := pyBasename path
  match rsplitChar '.' b.data with
  | some (a, _) => if d = "" then (⟨a⟩ : String) else d ++ "/" ++ (⟨a⟩ : String)
  | none => path

/-- Metadata the delegate filesystem reports for one stored file
(wrapped_fs.getinfo and wrapped_fs.getsize). -/
structure FInfo where
  size : Nat
  modified_time : Nat
  accessed_time : Nat
  created_time : Nat
deriving DecidableEq

/-- State of the delegate (wrapped) filesystem, restricted to its root
directory: subdirectory names and files as (name, info) pairs in listing
order. -/
structure DState where
  dirs : List String
  files : List (String × FInfo)
deriving DecidableEq

/-- Errors surfaced by the overlay or the delegate: fs.errors resource
errors, the Python ValueError that max of an empty sequence raises, and the
configuration error the spec demands for a bad max_part_size. -/
inductive FSError where
  | resourceNotFound (path : String)
  | resourceInvalid (path : String)
  | valueError
  | configurationError
deriving DecidableEq

/-- Delegate isdir. -/
def dIsdir (st : DState) (p : String) : Bool :=
  st.dirs.contains p

/-- Delegate isfile. -/
def dIsfile (st : DState) (p : String) : Bool :=
  st.files.any (fun f => f.1 == p)

/-- Delegate exists: a directory or a file of that name is present. -/
def dExists (st : DState) (p : String) : Bool :=
  dIsdir st p || dIsfile st p

/-- Wildcard test against an optional pattern; none matches everything. -/
def wcMatch (wc : Option String) (name : String) : Bool :=
  match wc with
  | none => true
  | some w => globMatch w.data name.data

/-- Delegate listdir with files_only: file names in listing order that match
the wildcard. Only the root directory is populated in this model. -/
def dListFiles (st : DState) (dir : String) (wc : Option String) : List String :=
  if dir = "" then (st.files.map (fun f => f.1)).filter (wcMatch wc) else []

/-- Delegate listdir with dirs_only. -/
def dListDirs (st : DState) (dir : String) (wc : Option String) : List String :=
  if dir = "" then st.dirs.filter (wcMatch wc) else []

/-- Delegate getinfo, total with a zero default; the overlay only applies it
to names obtained from the delegate listing itself. -/
def dGetinfo (st : DState) (p : String) : FInfo :=
  match st.files.find? (fun f => f.1 == p) with
  | some f => f.2
  | none => ⟨0, 0, 0, 0⟩

/-- Delegate getsize. -/
def dGetsize (st : DState) (p : String) : Nat :=
  (dGetinfo st p).size

/-- Delegate remove of a single file. -/
def dRemove (st : DState) (p : String) : DState :=
  ⟨st.dirs, st.files.filter (fun f => !(f.1 == p))⟩

/-- Delegate rename: not-found error when the source file is absent,
otherwise the entry is renamed in place. -/
def dRename (st : DState) (src dst : String) : Except FSError DState :=
  if dIsfile st src then
    .ok ⟨st.dirs, st.files.map (fun f => if f.1 == src then (dst, f.2) else f)⟩
  else .error (.resourceNotFound src)

/-- The empty file info the delegate records when open creates a file. -/
def emptyInfo : FInfo := ⟨0, 0, 0, 0⟩

/-- Delegate open for write: truncate an existing file or create it. -/
def dOpenWrite (st : DState) (p : String) : DState :=
  if dIsfile st p then
    ⟨st.dirs, st.files.map (fun f => if f.1 == p then (p, emptyInfo) else f)⟩
  else ⟨st.dirs, st.files ++ [(p, emptyInfo)]⟩

/-- Delegate open for append: creates the file when absent. -/
def dOpenAppend (st : DState) (p : String) : DState :=
  if dIsfile st p then st else ⟨st.dirs, st.files ++ [(p, emptyInfo)]⟩

/-- PartedFS.__init__ stores the delegate-independent configuration; the
source stores max_part_size without any validation. -/
structure PartedFSConfig where
  max_part_size : Int
deriving DecidableEq

/-- PartedFS.__init__: stores max_part_size unvalidated and never raises. -/
def PartedFS_init (max_part_size : Int) : PartedFSConfig :=
  ⟨max_part_size⟩

/-- The constructor the spec mandates, for comparison with the source one:
it rejects a max_part_size that is not a strictly positive integer with a
configuration error. -/
def PartedFS_init_spec (max_part_size : Int) : Except FSError PartedFSConfig :=
  if max_part_size ≤ 0 then .error .configurationError else .ok ⟨max_part_size⟩

/-- PartedFS.listparts: list the parent directory of the path on the
delegate, filtered by the wildcard basename(path) followed by ".part*",
files only. -/
def pfsListparts (st : DState) (path : String) : List String :=
  dListFiles st (pyDirname path) (some (pyBasename path ++ ".part*"))

/-- PartedFS.exists: the raw path exists on the delegate (e.g. a directory)
or the encoded part0 path exists. -/
def pfsExists (st : DState) (path : String) : Bool :=
  dExists st path || dExists st (pfsEncode path 0)

/-- PartedFS.isfile: the encoded part0 path is a file on the delegate. -/
def pfsIsfile (st : DState) (path : String) : Bool :=
  dIsfile st (pfsEncode path 0)

/-- PartedFS.remove: delete every part discovered for the path; the part
list is computed once and each part removed in turn on the delegate. -/
def pfsRemove (st : DState) (path : String) : DState :=
  (pfsListparts st path).foldl (fun s q => dRemove s q) st

/-- The open modes that PartedFS.open distinguishes by substring tests on
the mode string: plain read, write (truncate) and append. -/
inductive OpenMode where
  | read
  | write
  | append
deriving DecidableEq

/-- PartedFS.open: a directory raises a resource-invalid error first; read
mode requires existence and opens every discovered part; write mode removes
all parts of an existing path and truncate-creates part0; append mode goes
straight to opening part0 in append mode on the delegate. The result is the
list of part paths held by the returned PartedFile, paired with the
delegate state after all side effects. -/
def pfsOpen (st : DState) (path : String) (mode : OpenMode) :
    Except FSError (List String) × DState :=
  if dIsdir st path then (.error (.resourceInvalid path), st)
  else
    match mode with
    | .read =>
      if pfsExists st path then (.ok (pfsListparts st path), st)
      else (.error (.resourceNotFound path), st)
    | .write =>
      let st1 := if pfsExists st path then pfsRemove st path else st
      (.ok [pfsEncode path 0], dOpenWrite st1 (pfsEncode path 0))
    | .append =>
      (.ok [pfsEncode path 0], dOpenAppend st (pfsEncode path 0))

/-- Lexicographic byte-wise less-or-equal on character lists, the order
Python string comparison uses (by code point). -/
def charListLe : List Char → List Char → Bool
  | [], _ => true
  | _ :: _, [] => false
  | a :: as, b :: bs =>
    if a.toNat < b.toNat then true
    else if b.toNat < a.toNat then false
    else charListLe as bs

/-- Stable insertion into a lexicographically sorted list of strings. -/
def insertStr (x : String) : List String → List String
  | [] => [x]
  | y :: ys => if charListLe x.data y.data then x :: y :: ys else y :: insertStr x ys

/-- Python sorted on a list of strings: stable, ascending, lexicographic by
code point. -/
def pySorted : List String → List String
  | [] => []
  | x :: xs => insertStr x (pySorted xs)

/-- The enumerated rename loop of PartedFS.rename: for each (idx, part) of
the sorted part list the source name is recomputed as
_encode(_decode(part), idx) and renamed to _encode(dst, idx) on the
delegate; a delegate error aborts the loop, keeping the state mutated so
far. -/
def renameLoop (dst : String) : DState → Nat → List String → Except FSError Unit × DState
  | st, _, [] => (.ok (), st)
  | st, idx, part :: rest =>
    match dRename st (pfsEncode (pfsDecode part) idx) (pfsEncode dst idx) with
    | .error e => (.error e, st)
    | .ok st1 => renameLoop dst st1 (idx + 1) rest

/-- PartedFS.rename: not-found unless the source exists, else the
re-indexing rename loop over the sorted part list. -/
def pfsRename (st : DState) (src dst : String) : Except FSError Unit × DState :=
  if pfsExists st src then renameLoop dst st 0 (pySorted (pfsListparts st src))
  else (.error (.resourceNotFound src), st)

/-- PartedFS.getsize: not-found unless the path exists, else the sum of the
delegate-reported sizes of every discovered part. -/
def pfsGetsize (st : DState) (path : String) : Except FSError Nat :=
  if pfsExists st path then
    .ok (((pfsListparts st path).map (dGetsize st)).sum)
  else .error (.resourceNotFound path)

/-- Python max over a list of naturals; the empty-list arm is only a
placeholder, since the one caller below raises the ValueError Python would
raise there before using it. -/
def pyMax : List Nat → Nat
  | [] => 0
  | x :: xs => xs.foldl max x

/-- The synthesized info record that PartedFS.getinfo assembles. -/
structure PInfo where
  parts : List FInfo
  size : Nat
  created_time : Nat
  modified_time : Nat
  accessed_time : Nat
deriving DecidableEq

/-- PartedFS.getinfo: not-found unless the path exists; aggregates the part
infos, the size from getsize, and timestamps via max. Note the source fills
created_time from the parts modified_time values. -/
def pfsGetinfo (st : DState) (path : String) : Except FSError PInfo :=
  if pfsExists st path then
    let part_infos := (pfsListparts st path).map (dGetinfo st)
    match pfsGetsize st path with
    | .error e => .error e
    | .ok size =>
      if part_infos.isEmpty then .error .valueError
      else
        .ok ⟨part_infos, size,
             pyMax (part_infos.map (fun i => i.modified_time)),
             pyMax (part_infos.map (fun i => i.modified_time)),
             pyMax (part_infos.map (fun i => i.accessed_time))⟩
  else .error (.resourceNotFound path)

/-- PartedFS.listdir at the root: the delegate subdirectories with the
caller wildcard applied, followed by the decoded name of every file
matching "*.part0"; the caller wildcard is not applied to the file half. -/
def pfsListdir (st : DState) (wildcard : Option String)
    (dirs_only files_only : Bool) : List String :=
  let dirs := dListDirs st "" wildcard
  let files := (dListFiles st "" (some "*.part0")).map pfsDecode
  if dirs_only then dirs
  else if files_only then files
  else dirs ++ files

/-- Modelled from the spec: the Part Stream Adapter fresh-write session.
PartedFile and FilePart in drive/partedfs.py are bare declarations without
the read/write logic, so the write loop is taken from the spec: each write
fills the current part up to max_part_size bytes and rolls the remainder
over into a new part at the next index; a part is never opened eagerly at
an exact boundary; a fresh session always materialises part0, so an empty
payload yields one empty part. Fuel-driven so the kernel can evaluate it;
the fuel is the payload length, which the lemmas below show is enough. -/
def writeSessionGo (S : Nat) : Nat → List Nat → List (List Nat)
  | 0, payload => [payload]
  | fuel + 1, payload =>
    if payload.length ≤ S then [payload]
    else payload.take S :: writeSessionGo S fuel (payload.drop S)

/-- Modelled from the spec: the contents of the physical parts, in ascending
part-index order, once a fresh write session that received the whole
payload in one write closes. A zero max_part_size is the misconfiguration
the spec rejects at construction; it yields no parts here and is excluded
by the hypotheses of the theorems below. -/
def writeSession (S : Nat) (payload : List Nat) : List (List Nat) :=
  if S = 0 then [] else writeSessionGo S payload.length payload

/-- Modelled from the spec: the Part Stream Adapter read mode drains the
parts in ascending index order, concatenating their bytes into one logical
stream. -/
def readSession (parts : List (List Nat)) : List Nat :=
  parts.flatten

/-- Delegate state with a gapped part set for the source of a rename:
parts at indices 0, 2 and 5. -/
def stGapped : DState :=
  ⟨[], [("src.part0", ⟨10, 0, 0, 0⟩), ("src.part2", ⟨20, 0, 0, 0⟩),
        ("src.part5", ⟨30, 0, 0, 0⟩)]⟩

/-- Delegate state exercising the part10-versus-part2 ordering and a
non-digit part suffix. -/
def stSuffixes : DState :=
  ⟨[], [("f.part2", ⟨2, 0, 0, 0⟩), ("f.part10", ⟨10, 0, 0, 0⟩),
        ("f.partjunk", ⟨7, 0, 0, 0⟩)]⟩

/-- Delegate state with one part whose created_time differs from its
modified_time. -/
def stOnePart : DState := ⟨[], [("g.part0", ⟨1, 5, 4, 3⟩)]⟩

/-- The 240-byte scenario of the spec: three parts of 100, 100 and 40
bytes. -/
def stBackup : DState :=
  ⟨[], [("backup.tar.part0", ⟨100, 0, 0, 0⟩), ("backup.tar.part1", ⟨100, 0, 0, 0⟩),
        ("backup.tar.part2", ⟨40, 0, 0, 0⟩)]⟩

/-- Delegate state where a directory and a parted file share the name. -/
def stShadow : DState := ⟨["big.tar"], [("big.tar.part0", ⟨1, 0, 0, 0⟩)]⟩

/-- Delegate state with a directory that also has a same-named part set. -/
def stDirWithParts : DState := ⟨["d"], [("d.part0", ⟨9, 0, 0, 0⟩)]⟩

/-- The empty delegate state. -/
def stEmpty : DState := ⟨[], []⟩

theorem le_foldl_max (a : Nat) (l : List Nat) : a ≤ l.foldl max a := by
  induction l generalizing a with
  | nil => exact Nat.le_refl a
  | cons b t ih =>
    rw [List.foldl_cons]
    exact Nat.le_trans (Nat.le_max_left a b) (ih (max a b))

theorem foldl_max_mem (l : List Nat) : ∀ a, l.foldl max a = a ∨ l.foldl max a ∈ l := by
  induction l with
  | nil => intro a; left; rfl
  | cons b t ih =>
    intro a
    rw [List.foldl_cons]
    rcases ih (max a b) with h | h
    · rcases max_choice a b with hab | hab
      · left; rw [h, hab]
      · right; rw [h, hab]; exact List.mem_cons_self b t
    · right; exact List.mem_cons_of_mem b h

theorem mem_le_foldl_max (l : List Nat) : ∀ a x, x ∈ l → x ≤ l.foldl max a := by
  induction l with
  | nil => intro a x hx; cases hx
  | cons b t ih =>
    intro a x hx
    rw [List.foldl_cons]
    rcases List.mem_cons.mp hx with rfl | hmem
    · exact Nat.le_trans (Nat.le_max_right a x) (le_foldl_max (max a x) t)
    · exact ih (max a b) x hmem

theorem pyMax_mem (l : List Nat) (h : l ≠ []) : pyMax l ∈ l := by
  match l with
  | [] => exact absurd rfl h
  | x :: xs =>
    rcases foldl_max_mem xs x with h1 | h1
    · rw [pyMax, h1]; exact List.mem_cons_self x xs
    · rw [pyMax]; exact List.mem_cons_of_mem x h1

theorem pyMax_ub (l : List Nat) : ∀ x ∈ l, x ≤ pyMax l := by
  intro x hx
  match l with
  | [] => cases hx
  | y :: ys =>
    rcases List.mem_cons.mp hx with rfl | hmem
    · exact le_foldl_max x ys
    · exact mem_le_foldl_max ys y x hmem

theorem writeSessionGo_spec (S : Nat) (hS : 0 < S) :
    ∀ fuel P, P.length ≤ fuel →
      (writeSessionGo S fuel P).flatten = P ∧
      ∀ part ∈ writeSessionGo S fuel P, part.length ≤ S := by
  intro fuel
  induction fuel with
  | zero =>
    intro P hP
    have hP0 : P = [] := List.length_eq_zero.mp (Nat.le_zero.mp hP)
    subst hP0
    refine ⟨rfl, ?_⟩
    intro part hpart
    rw [writeSessionGo] at hpart
    rcases List.mem_singleton.mp hpart with rfl
    exact Nat.zero_le S
  | succ n ih =>
    intro P hP
    rw [writeSessionGo]
    split
    · refine ⟨by simp, ?_⟩
      intro part hpart
      rcases List.mem_singleton.mp hpart with rfl
      assumption
    · rename_i hlen
      have hdrop : (P.drop S).length ≤ n := by
        rw [List.length_drop]
        omega
      obtain ⟨ihj, ihb⟩ := ih (P.drop S) hdrop
      constructor
      · rw [List.flatten_cons, ihj, List.take_append_drop]
      · intro part hpart
        rcases List.mem_cons.mp hpart with rfl | hmem
        · rw [List.length_take]
          omega
        · exact ihb part hmem

/-- C1: for every payload P and every max_part_size S strictly positive,
writing P through a fresh write session and closing it leaves physical
parts whose concatenation in ascending part-index order equals P, no part
exceeds S bytes, and reading the logical stream back yields exactly P. -/
theorem c1_write_roundtrip (S : Nat) (P : List Nat) (hS : 0 < S) :
    (writeSession S P).flatten = P ∧
    (∀ part ∈ writeSession S P, part.length ≤ S) ∧
    readSession (writeSession S P) = P := by
  have hS0 : ¬ S = 0 := Nat.pos_iff_ne_zero.mp hS
  obtain ⟨h1, h2⟩ := writeSessionGo_spec S hS P.length P (Nat.le_refl _)
  rw [writeSession, if_neg hS0]
  exact ⟨h1, h2, h1⟩

/-- C1 witness: a 3-byte payload under max_part_size 2 splits into two
parts that concatenate and read back to the payload. -/
theorem c1_write_roundtrip_witness :
    0 < 2 ∧
    ((writeSession 2 [1, 2, 3]).flatten = [1, 2, 3] ∧
     (∀ part ∈ writeSession 2 [1, 2, 3], part.length ≤ 2) ∧
     readSession (writeSession 2 [1, 2, 3]) = [1, 2, 3]) :=
  ⟨by decide, c1_write_roundtrip 2 [1, 2, 3] (by decide)⟩

/-- C2: code bug. With source parts at indices 0, 2 and 5, the rename loop
recomputes each source name from the new contiguous index instead of using
the discovered part name: after renaming part0 it asks the delegate to
rename the nonexistent src.part1, which raises not-found and aborts the
loop, leaving a mixed state instead of a gap-free destination. -/
theorem c2_rename_gap_bug :
    pfsRename stGapped "src" "dst" =
      (.error (.resourceNotFound "src.part1"),
       ⟨[], [("dst.part0", ⟨10, 0, 0, 0⟩), ("src.part2", ⟨20, 0, 0, 0⟩),
             ("src.part5", ⟨30, 0, 0, 0⟩)]⟩) := by
  rfl

/-- C3 counterexample: opening a logical path with no discoverable part0 in
append mode does not raise a not-found error; it succeeds and creates an
empty part0 on the delegate. -/
theorem c3_append_creates_part0 :
    pfsOpen stEmpty "p" .append =
      (.ok ["p.part0"], ⟨[], [("p.part0", emptyInfo)]⟩) := by
  rfl

/-- C3 amended: on a logical path the overlay does not consider existing
(no part0 and no same-named delegate entry), read mode raises not-found and
changes nothing, while append mode raises nothing and creates an empty
part0 via the delegate. -/
theorem c3_open_missing (st : DState) (p : String)
    (h : pfsExists st p = false) :
    pfsOpen st p .read = (.error (.resourceNotFound p), st) ∧
    pfsOpen st p .append =
      (.ok [pfsEncode p 0], ⟨st.dirs, st.files ++ [(pfsEncode p 0, emptyInfo)]⟩) := by
  have h2 := h
  simp only [pfsExists, dExists, Bool.or_eq_false_iff] at h2
  obtain ⟨⟨hdir, _⟩, _, hpfile⟩ := h2
  constructor
  · rw [pfsOpen, hdir]
    simp only [Bool.false_eq_true, if_false, h]
  · rw [pfsOpen, hdir]
    simp only [Bool.false_eq_true, if_false]
    rw [dOpenAppend, hpfile]
    simp

/-- C3 witness: the amended statement applied to the empty delegate. -/
theorem c3_open_missing_witness :
    pfsExists stEmpty "q" = false ∧
    (pfsOpen stEmpty "q" .read = (.error (.resourceNotFound "q"), stEmpty) ∧
     pfsOpen stEmpty "q" .append =
       (.ok [pfsEncode "q" 0], ⟨[], [(pfsEncode "q" 0, emptyInfo)]⟩)) :=
  ⟨by decide, c3_open_missing stEmpty "q" (by decide)⟩

/-- C4 counterexample: constructing with max_part_size zero succeeds and
stores the zero, whereas the constructor the spec mandates raises a
configuration error there. -/
theorem c4_init_unvalidated :
    PartedFS_init 0 = ⟨0⟩ ∧
    PartedFS_init_spec 0 = .error .configurationError :=
  ⟨rfl, rfl⟩

/-- C4 amended: the constructor validates nothing: every max_part_size,
positive or not, is stored unchanged and no error is raised at
construction time. -/
theorem c4_init_stores (s : Int) : PartedFS_init s = ⟨s⟩ := rfl

/-- C5: code bug. The part locator wildcard also accepts the non-digit
suffix f.partjunk, and the sorted order that rename and copy consume is
lexicographic, placing f.part10 before f.part2 instead of numerically
after it. -/
theorem c5_lexical_sort_bug :
    pfsListparts stSuffixes "f" = ["f.part2", "f.part10", "f.partjunk"] ∧
    pySorted (pfsListparts stSuffixes "f") = ["f.part10", "f.part2", "f.partjunk"] := by
  exact ⟨rfl, rfl⟩

/-- C6 counterexample: with a single part whose underlying created_time is 3
and modified_time is 5, getinfo reports created_time 5, the maximum of the
modified times, not the maximum (3) of the corresponding created times. -/
theorem c6_created_from_modified :
    pfsGetinfo stOnePart "g" = .ok ⟨[⟨1, 5, 4, 3⟩], 1, 5, 5, 4⟩ ∧
    ¬ ((⟨[⟨1, 5, 4, 3⟩], 1, 5, 5, 4⟩ : PInfo).created_time =
        pyMax ([(⟨1, 5, 4, 3⟩ : FInfo)].map (fun i => i.created_time))) :=
  ⟨rfl, by decide⟩

theorem pfsGetinfo_ok (st : DState) (p : String)
    (hex : pfsExists st p = true) (hne : pfsListparts st p ≠ []) :
    pfsGetinfo st p =
      .ok ⟨(pfsListparts st p).map (dGetinfo st),
           ((pfsListparts st p).map (dGetsize st)).sum,
           pyMax (((pfsListparts st p).map (dGetinfo st)).map (fun i => i.modified_time)),
           pyMax (((pfsListparts st p).map (dGetinfo st)).map (fun i => i.modified_time)),
           pyMax (((pfsListparts st p).map (dGetinfo st)).map (fun i => i.accessed_time))⟩ := by
  obtain ⟨q, qs, hcons⟩ := List.exists_cons_of_ne_nil hne
  have hsize : pfsGetsize st p = .ok (((pfsListparts st p).map (dGetsize st)).sum) := by
    simp [pfsGetsize, hex]
  rw [pfsGetinfo.eq_def]
  simp only [hex, if_true, hsize, hcons]
  simp

/-- C6 amended: for every existing logical path with a nonempty part list,
getinfo returns metadata whose size is the sum of the part sizes, whose
modified and accessed timestamps are the maxima of the corresponding
underlying timestamps across all parts, and whose created_time equals the
maximum of the underlying modified times (so created equals modified), not
of the underlying created times. -/
theorem c6_getinfo_spec (st : DState) (p : String)
    (hex : pfsExists st p = true) (hne : pfsListparts st p ≠ []) :
    ∃ info : PInfo,
      pfsGetinfo st p = .ok info ∧
      info.parts = (pfsListparts st p).map (dGetinfo st) ∧
      info.size = ((pfsListparts st p).map (dGetsize st)).sum ∧
      info.created_time = info.modified_time ∧
      info.modified_time ∈ info.parts.map (fun i => i.modified_time) ∧
      (∀ t ∈ info.parts.map (fun i => i.modified_time), t ≤ info.modified_time) ∧
      info.accessed_time ∈ info.parts.map (fun i => i.accessed_time) ∧
      (∀ t ∈ info.parts.map (fun i => i.accessed_time), t ≤ info.accessed_time) := by
  refine ⟨_, pfsGetinfo_ok st p hex hne, rfl, rfl, rfl, ?_, ?_, ?_, ?_⟩
  · exact pyMax_mem _ (by obtain ⟨q, qs, hcons⟩ := List.exists_cons_of_ne_nil hne; rw [hcons]; simp)
  · intro t ht; exact pyMax_ub _ t ht
  · exact pyMax_mem _ (by obtain ⟨q, qs, hcons⟩ := List.exists_cons_of_ne_nil hne; rw [hcons]; simp)
  · intro t ht; exact pyMax_ub _ t ht

/-- C6 witness: the amended statement applied to the one-part state. -/
theorem c6_getinfo_spec_witness :
    pfsExists stOnePart "g" = true ∧ pfsListparts stOnePart "g" ≠ [] ∧
    (∃ info : PInfo,
      pfsGetinfo stOnePart "g" = .ok info ∧
      info.parts = (pfsListparts stOnePart "g").map (dGetinfo stOnePart) ∧
      info.size = ((pfsListparts stOnePart "g").map (dGetsize stOnePart)).sum ∧
      info.created_time = info.modified_time ∧
      info.modified_time ∈ info.parts.map (fun i => i.modified_time) ∧
      (∀ t ∈ info.parts.map (fun i => i.modified_time), t ≤ info.modified_time) ∧
      info.accessed_time ∈ info.parts.map (fun i => i.accessed_time) ∧
      (∀ t ∈ info.parts.map (fun i => i.accessed_time), t ≤ info.accessed_time)) :=
  ⟨by decide, by decide, c6_getinfo_spec stOnePart "g" (by decide) (by decide)⟩

/-- C7: getsize raises not-found exactly when the overlay considers the path
nonexistent, and otherwise returns the sum of the delegate-reported sizes
of every discovered part. -/
theorem c7_getsize_spec (st : DState) (p : String) :
    (pfsExists st p = false → pfsGetsize st p = .error (.resourceNotFound p)) ∧
    (pfsExists st p = true →
      pfsGetsize st p = .ok (((pfsListparts st p).map (dGetsize st)).sum)) := by
  constructor <;> intro h <;> simp [pfsGetsize, h]

/-- C7 witness: the 240-byte scenario of the spec sums 100 + 100 + 40, and
the empty delegate raises not-found. -/
theorem c7_getsize_spec_witness :
    (pfsExists stBackup "backup.tar" = true ∧
     pfsGetsize stBackup "backup.tar" =
       .ok (((pfsListparts stBackup "backup.tar").map (dGetsize stBackup)).sum) ∧
     ((pfsListparts stBackup "backup.tar").map (dGetsize stBackup)).sum = 240) ∧
    (pfsExists stEmpty "backup.tar" = false ∧
     pfsGetsize stEmpty "backup.tar" = .error (.resourceNotFound "backup.tar")) :=
  ⟨⟨by decide, (c7_getsize_spec stBackup "backup.tar").2 (by decide), by decide⟩,
   ⟨by decide, (c7_getsize_spec stEmpty "backup.tar").1 (by decide)⟩⟩

/-- C8 counterexample: when a delegate directory shares its name with a
parted file, the merged listing contains that name twice. -/
theorem c8_shadowed_listing_duplicates :
    pfsListdir stShadow none false false = ["big.tar", "big.tar"] ∧
    ¬ (pfsListdir stShadow none false false).Nodup :=
  ⟨rfl, by decide⟩

/-- C8 amended: the overlay listing is the delegate subdirectories followed
by the decoded logical name of every part0 physical entry, with no part
suffix visible; the example directory with subdirectory sub and parts
big.tar.part0 and big.tar.part1 lists as exactly [sub, big.tar] without
duplicates, but duplicates can occur when a subdirectory and a parted file
share a name. -/
theorem c8_listing_merge (i0 i1 : FInfo) :
    pfsListdir ⟨["sub"], [("big.tar.part0", i0), ("big.tar.part1", i1)]⟩ none false false
      = ["sub", "big.tar"] ∧
    (pfsListdir ⟨["sub"], [("big.tar.part0", i0), ("big.tar.part1", i1)]⟩
        none false false).Nodup := by
  have h : pfsListdir ⟨["sub"], [("big.tar.part0", i0), ("big.tar.part1", i1)]⟩
      none false false = ["sub", "big.tar"] := rfl
  refine ⟨h, ?_⟩
  rw [h]
  decide

/-- C9: opening a path that is a directory on the delegate raises the
resource-invalid error in every mode, before any mutating call, so the
delegate state, including any same-named part set, is unchanged. -/
theorem c9_open_directory (st : DState) (p : String) (m : OpenMode)
    (h : dIsdir st p = true) :
    pfsOpen st p m = (.error (.resourceInvalid p), st) := by
  simp [pfsOpen, h]

/-- C9 witness: a directory that also has a same-named part set is rejected
in write mode with the state, parts included, untouched. -/
theorem c9_open_directory_witness :
    dIsdir stDirWithParts "d" = true ∧
    pfsOpen stDirWithParts "d" .write = (.error (.resourceInvalid "d"), stDirWithParts) :=
  ⟨by decide, c9_open_directory stDirWithParts "d" .write (by decide)⟩

/-- C10: the caller wildcard only filters the directory half of the overlay
listing: the file half is the decoded part0 entries whatever the wildcard
is, and the combined listing is the wildcard-filtered directories followed
by that wildcard-independent file list. -/
theorem c10_listdir_wildcard_scope (st : DState) (w1 w2 : Option String) :
    pfsListdir st w1 false true = pfsListdir st w2 false true ∧
    pfsListdir st w1 false false =
      pfsListdir st w1 true false ++ pfsListdir st w1 false true :=
  ⟨rfl, rfl⟩
